import Mathlib

/-!
Verification of the forum-archiving scraper (`gemini.py`).

The Python source is embedded shallowly: pure string helpers become Lean
functions on `String`/`List Char`; the HTML tree handled by the markup
library becomes an inductive `Node`; network fetching becomes an explicit
function argument `fetch : String → Option Soup`; filesystem writes and
crawl invocations become returned lists of intents.  The standard-library
relative-URL join (`urllib.parse.urljoin`) is an external collaborator and
is passed in as an explicit parameter `join`.
-/

namespace GMC

/-- Python `str.strip()` whitespace set, restricted to the ASCII range
(space, tab, newline, carriage return, vertical tab, form feed). -/
def pyWs (c : Char) : Bool :=
  c == ' ' || c == '\t' || c == '\n' || c == '\r' || c == '\x0b' || c == '\x0c'

/-- Strip `pyWs` characters from both ends of a character list
(Python `str.strip()`). -/
def pyStripL (l : List Char) : List Char :=
  ((l.dropWhile pyWs).reverse.dropWhile pyWs).reverse

/-- Python `str.strip()` on strings. -/
def pyStrip (s : String) : String :=
  ⟨pyStripL s.data⟩

/-- `isPre p l` is true when `p` is a leading segment of `l`
(Python `str.startswith`, on character lists). -/
def isPre : List Char → List Char → Bool
  | [], _ => true
  | _ :: _, [] => false
  | p :: ps, a :: as => p == a && isPre ps as

/-- `containsSub n h` is true when `n` occurs contiguously inside `h`
(Python's `in` operator on strings, on character lists). -/
def containsSub (n : List Char) : List Char → Bool
  | [] => isPre n []
  | l@(_ :: t) => isPre n l || containsSub n t

/-- Python `needle in hay` for strings. -/
def pyIn (needle hay : String) : Bool :=
  containsSub needle.data hay.data

/-- Python `s.startswith(p)`. -/
def pyStartswith (s p : String) : Bool :=
  isPre p.data s.data

/-- Whether a string's last character is the path separator. -/
def endsSlash (a : String) : Bool :=
  match a.data.getLast? with
  | some c => c == '/'
  | none => false

/-- `os.path.join` for the two-argument POSIX cases the scraper uses. -/
def joinPath (a b : String) : String :=
  if pyStartswith b "/" then b
  else if a == "" then b
  else if endsSlash a then a ++ b
  else a ++ "/" ++ b

/-- `resolve_url` from the source: hrefs that already carry an `http`
scheme are returned unchanged, archive-root absolute paths (`/web/`) are
re-anchored to `https://web.archive.org`, and anything else is joined with
the base URL by the external `urljoin` collaborator, passed here as
`join`. -/
def resolve_url (join : String → String → String) (base href : String) : String :=
  if pyStartswith href "http" then href
  else if pyStartswith href "/web/" then "https://web.archive.org" ++ href
  else join base href

theorem isPre_false_of_head_ne {p a : Char} {ps as : List Char} (h : (p == a) = false) :
    isPre (p :: ps) (a :: as) = false := by
  simp [isPre, h]

theorem web_not_http {l : List Char} (h : isPre ['/', 'w', 'e', 'b', '/'] l = true) :
    isPre ['h', 't', 't', 'p'] l = false := by
  cases l with
  | nil => simp [isPre] at h
  | cons a t =>
    have ha : ('/' == a) = true := by
      by_contra hne
      simp [isPre, Bool.eq_false_iff.mpr hne] at h
    have : a = '/' := by
      have := eq_of_beq ha
      exact this.symm
    subst this
    simp [isPre]

/-- **C1.** `resolve_url` returns `href` unchanged when it starts with
`http`; prepends `https://web.archive.org` when it starts with `/web/`;
and otherwise hands the pair to the standard relative join. -/
theorem resolve_url_cases (join : String → String → String) (base href : String)
    (hne : href ≠ "") :
    (pyStartswith href "http" = true → resolve_url join base href = href) ∧
    (pyStartswith href "/web/" = true →
      resolve_url join base href = "https://web.archive.org" ++ href) ∧
    (pyStartswith href "http" = false → pyStartswith href "/web/" = false →
      resolve_url join base href = join base href) := by
  refine ⟨fun h1 => ?_, fun h2 => ?_, fun h1 h2 => ?_⟩
  · simp [resolve_url, h1]
  · have hh : pyStartswith href "http" = false := by
      have : ("/web/".data) = ['/', 'w', 'e', 'b', '/'] := rfl
      have h2' : isPre ['/', 'w', 'e', 'b', '/'] href.data = true := by
        simpa [pyStartswith, this] using h2
      have : isPre ['h', 't', 't', 'p'] href.data = false := web_not_http h2'
      simpa [pyStartswith] using this
    simp [resolve_url, hh, h2]
  · simp [resolve_url, h1, h2]

/-- Witness for C1 at concrete inputs, one per branch. -/
theorem resolve_url_cases_witness :
    resolve_url (fun b h => b ++ h) "http://x/" "http://y/z" = "http://y/z" ∧
    resolve_url (fun b h => b ++ h) "http://x/" "/web/a" = "https://web.archive.org" ++ "/web/a" ∧
    resolve_url (fun b h => b ++ h) "http://x/" "page2.html" = "http://x/" ++ "page2.html" :=
  ⟨(resolve_url_cases (fun b h => b ++ h) "http://x/" "http://y/z" (by decide)).1 (by decide),
   (resolve_url_cases (fun b h => b ++ h) "http://x/" "/web/a" (by decide)).2.1 (by decide),
   (resolve_url_cases (fun b h => b ++ h) "http://x/" "page2.html" (by decide)).2.2
     (by decide) (by decide)⟩

/-! ## Page Fetcher (`make_soup`)

`make_soup` loops over at most `retries = 3` attempts.  Each attempt's
outcome (a parsed page, or a transport/status failure) is supplied by the
environment function `outcome : Nat → Option α` indexed by the attempt
number.  The model returns the result together with the number of attempts
actually made and the list of backoff waits slept between attempts. -/

/-- One run of the retry loop of `make_soup`: `rem` attempts remain, the
next attempt has index `i`, and the current backoff delay is `d` seconds.
Returns (result, attempts made, backoff waits slept in order). -/
def makeSoupGo (outcome : Nat → Option α) : Nat → Nat → Nat → Option α × Nat × List Nat
  | 0, _, _ => (none, 0, [])
  | rem + 1, i, d =>
    match outcome i with
    | some s => (some s, 1, [])
    | none =>
      if rem = 0 then (none, 1, [])
      else
        let r := makeSoupGo outcome rem (i + 1) (2 * d)
        (r.1, r.2.1 + 1, d :: r.2.2)

/-- `make_soup` from the source: 3 total attempts, initial backoff delay
of 5 seconds, doubling after each failed attempt. -/
def make_soup (outcome : Nat → Option α) : Option α × Nat × List Nat :=
  makeSoupGo outcome 3 0 5

/-- **C5.** `make_soup` makes at most 3 attempts; if all attempts fail it
returns `none` (never raises) after sleeping backoff waits 5 then 10; a
successful attempt at index `j` returns the page immediately after `j + 1`
attempts, with exactly the first `j` backoff waits slept. -/
theorem make_soup_retry_spec (outcome : Nat → Option α) :
    (make_soup outcome).2.1 ≤ 3 ∧
    ((∀ i, i < 3 → outcome i = none) → make_soup outcome = (none, 3, [5, 10])) ∧
    (∀ j s, j < 3 → (∀ i, i < j → outcome i = none) → outcome j = some s →
      make_soup outcome = (some s, j + 1, (List.range j).map (fun k => 5 * 2 ^ k))) := by
  refine ⟨?_, ?_, ?_⟩
  · rcases h0 : outcome 0 with _ | s0 <;>
      rcases h1 : outcome 1 with _ | s1 <;>
        rcases h2 : outcome 2 with _ | s2 <;>
          simp [make_soup, makeSoupGo, h0, h1, h2]
  · intro hall
    have h0 := hall 0 (by omega)
    have h1 := hall 1 (by omega)
    have h2 := hall 2 (by omega)
    simp [make_soup, makeSoupGo, h0, h1, h2]
  · intro j s hj hprev hj'
    interval_cases j
    · simp [make_soup, makeSoupGo, hj']
    · have h0 := hprev 0 (by omega)
      simp [make_soup, makeSoupGo, h0, hj']
      decide
    · have h0 := hprev 0 (by omega)
      have h1 := hprev 1 (by omega)
      simp [make_soup, makeSoupGo, h0, h1, hj']
      decide

/-- Witness for C5: the all-fail run and an immediate-success run. -/
theorem make_soup_retry_spec_witness :
    make_soup (fun _ => (none : Option Nat)) = (none, 3, [5, 10]) ∧
    make_soup (fun _ => some 42) = (some 42, 1, []) :=
  ⟨(make_soup_retry_spec (fun _ => (none : Option Nat))).2.1 (fun i _ => rfl),
   (make_soup_retry_spec (fun _ => some 42)).2.2 0 42 (by omega) (fun i h => absurd h (by omega))
     rfl⟩

/-! ## Filename Sanitizer (`sanitize_filename`) -/

/-- The characters replaced by `re.sub(r'[\\/*?:"<>|]', "_", name)`. -/
def badChar (c : Char) : Bool :=
  c == '\\' || c == '/' || c == '*' || c == '?' || c == ':' || c == '"' ||
    c == '<' || c == '>' || c == '|'

/-- The character class `[\s_]` of `re.sub(r'[\s_]+', '_', name)`. -/
def wsU (c : Char) : Bool :=
  pyWs c || c == '_'

mutual

/-- `re.sub(r'[\s_]+', '_', ...)`: each maximal run of whitespace-or-
underscore characters becomes a single underscore. -/
def collapse : List Char → List Char
  | [] => []
  | c :: cs => if wsU c then '_' :: collapseSkip cs else c :: collapse cs

/-- Continuation of `collapse` after an emitted underscore: skip the rest
of the current `[\s_]` run. -/
def collapseSkip : List Char → List Char
  | [] => []
  | c :: cs => if wsU c then collapseSkip cs else c :: collapse cs

end

/-- `sanitize_filename` on character lists: strip, replace the invalid
characters by `_`, collapse `[\s_]+` runs to `_`, truncate to 100. -/
def sanitizeL (l : List Char) : List Char :=
  (collapse ((pyStripL l).map (fun c => if badChar c then '_' else c))).take 100

/-- `sanitize_filename` from the source. -/
def sanitize_filename (s : String) : String :=
  ⟨sanitizeL s.data⟩

mutual

theorem collapse_mem : ∀ (l : List Char), ∀ c ∈ collapse l, c = '_' ∨ c ∈ l
  | [], c, h => by simp [collapse] at h
  | a :: t, c, h => by
    rw [collapse] at h
    by_cases hw : wsU a
    · simp only [hw, if_pos] at h
      rcases List.mem_cons.mp h with h1 | h2
      · exact Or.inl h1
      · rcases collapseSkip_mem t c h2 with h3 | h4
        · exact Or.inl h3
        · exact Or.inr (List.mem_cons_of_mem a h4)
    · simp only [hw, if_neg, Bool.false_eq_true, not_false_iff] at h
      rcases List.mem_cons.mp h with h1 | h2
      · exact Or.inr (h1 ▸ List.mem_cons_self a t)
      · rcases collapse_mem t c h2 with h3 | h4
        · exact Or.inl h3
        · exact Or.inr (List.mem_cons_of_mem a h4)

theorem collapseSkip_mem : ∀ (l : List Char), ∀ c ∈ collapseSkip l, c = '_' ∨ c ∈ l
  | [], c, h => by simp [collapseSkip] at h
  | a :: t, c, h => by
    rw [collapseSkip] at h
    by_cases hw : wsU a
    · simp only [hw, if_pos] at h
      rcases collapseSkip_mem t c h with h3 | h4
      · exact Or.inl h3
      · exact Or.inr (List.mem_cons_of_mem a h4)
    · simp only [hw, if_neg, Bool.false_eq_true, not_false_iff] at h
      rcases List.mem_cons.mp h with h1 | h2
      · exact Or.inr (h1 ▸ List.mem_cons_self a t)
      · rcases collapse_mem t c h2 with h3 | h4
        · exact Or.inl h3
        · exact Or.inr (List.mem_cons_of_mem a h4)

end

theorem sanitizeL_noBad (l : List Char) : ∀ c ∈ sanitizeL l, badChar c = false := by
  intro c hc
  have hc' : c ∈ collapse ((pyStripL l).map (fun c => if badChar c then '_' else c)) :=
    List.take_subset 100 _ hc
  rcases collapse_mem _ c hc' with h | h
  · subst h; decide
  · rcases List.mem_map.mp h with ⟨a, _, ha⟩
    by_cases hb : badChar a
    · simp only [hb, if_pos] at ha; subst ha; decide
    · simp only [hb, if_neg, Bool.false_eq_true, not_false_iff] at ha
      subst ha
      exact Bool.eq_false_iff.mpr hb

/-- **C8.** `sanitize_filename` output contains no invalid filename
character, has length at most 100, maps the empty string to itself and
maps three interior spaces to a single underscore. -/
theorem sanitize_filename_spec (name : String) :
    (∀ c ∈ (sanitize_filename name).data, badChar c = false) ∧
    (sanitize_filename name).length ≤ 100 ∧
    sanitize_filename "" = "" ∧
    sanitize_filename "A   B" = "A_B" := by
  refine ⟨?_, ?_, by decide, by decide⟩
  · intro c hc
    exact sanitizeL_noBad name.data c hc
  · show (sanitizeL name.data).length ≤ 100
    exact List.length_take_le 100 _

/-- Witness for C8 at a concrete input. -/
theorem sanitize_filename_spec_witness :
    badChar 'a' = false ∧
    (sanitize_filename "a/b:c").length ≤ 100 ∧
    sanitize_filename "" = "" ∧
    sanitize_filename "A   B" = "A_B" :=
  ⟨(sanitize_filename_spec "a/b:c").1 'a' (by decide),
   (sanitize_filename_spec "a/b:c").2.1,
   (sanitize_filename_spec "a/b:c").2.2.1,
   (sanitize_filename_spec "a/b:c").2.2.2⟩

/-- Adjacency invariant: no two consecutive characters are both in the
`[\s_]` class.  Output of `collapse` satisfies this. -/
def collOk : List Char → Bool
  | [] => true
  | [_] => true
  | a :: b :: t => (!(wsU a && wsU b)) && collOk (b :: t)

theorem dropWhile_false (p : Char → Bool) (l : List Char) (h : ∀ c ∈ l, p c = false) :
    l.dropWhile p = l := by
  cases l with
  | nil => rfl
  | cons a t => rw [List.dropWhile_cons_of_neg]; simp [h a (by simp)]

theorem pyStripL_id (l : List Char) (h : ∀ c ∈ l, pyWs c = false) : pyStripL l = l := by
  unfold pyStripL
  rw [dropWhile_false pyWs l h]
  rw [dropWhile_false pyWs l.reverse (fun c hc => h c (List.mem_reverse.mp hc))]
  exact List.reverse_reverse l

mutual

theorem collapse_noWs : ∀ (l : List Char), ∀ c ∈ collapse l, pyWs c = false
  | [], c, h => by simp [collapse] at h
  | a :: t, c, h => by
    rw [collapse] at h
    by_cases hw : wsU a
    · simp only [hw, if_pos] at h
      rcases List.mem_cons.mp h with h1 | h2
      · subst h1; decide
      · exact collapseSkip_noWs t c h2
    · simp only [hw, if_neg, Bool.false_eq_true, not_false_iff] at h
      rcases List.mem_cons.mp h with h1 | h2
      · subst h1
        have : wsU c = false := Bool.eq_false_iff.mpr hw
        unfold wsU at this
        exact (Bool.or_eq_false_iff.mp this).1
      · exact collapse_noWs t c h2

theorem collapseSkip_noWs : ∀ (l : List Char), ∀ c ∈ collapseSkip l, pyWs c = false
  | [], c, h => by simp [collapseSkip] at h
  | a :: t, c, h => by
    rw [collapseSkip] at h
    by_cases hw : wsU a
    · simp only [hw, if_pos] at h
      exact collapseSkip_noWs t c h
    · simp only [hw, if_neg, Bool.false_eq_true, not_false_iff] at h
      rcases List.mem_cons.mp h with h1 | h2
      · subst h1
        have : wsU c = false := Bool.eq_false_iff.mpr hw
        unfold wsU at this
        exact (Bool.or_eq_false_iff.mp this).1
      · exact collapse_noWs t c h2

end

theorem collapseSkip_head : ∀ (l : List Char) (c : Char) (t : List Char),
    collapseSkip l = c :: t → wsU c = false := by
  intro l
  induction l with
  | nil => intro c t h; simp [collapseSkip] at h
  | cons a cs ih =>
    intro c t h
    rw [collapseSkip] at h
    by_cases hw : wsU a
    · simp only [hw, if_pos] at h
      exact ih c t h
    · simp only [hw, if_neg, Bool.false_eq_true, not_false_iff] at h
      have : a = c := (List.cons.injEq _ _ _ _ ▸ h).1
      subst this
      exact Bool.eq_false_iff.mpr hw

theorem collOk_cons (a : Char) (t : List Char) (hh : ∀ c t', t = c :: t' → (wsU a && wsU c) = false)
    (ht : collOk t = true) : collOk (a :: t) = true := by
  cases t with
  | nil => rfl
  | cons b t' =>
    rw [collOk]
    rw [hh b t' rfl]
    simpa using ht

mutual

theorem collapse_collOk : ∀ (l : List Char), collOk (collapse l) = true
  | [] => rfl
  | a :: cs => by
    rw [collapse]
    by_cases hw : wsU a
    · simp only [hw, if_pos]
      refine collOk_cons '_' _ (fun c t' h => ?_) (collapseSkip_collOk cs)
      rw [collapseSkip_head cs c t' h]
      simp
    · simp only [hw, if_neg, Bool.false_eq_true, not_false_iff]
      refine collOk_cons a _ (fun c t' _ => ?_) (collapse_collOk cs)
      rw [Bool.eq_false_iff.mpr hw]
      simp

theorem collapseSkip_collOk : ∀ (l : List Char), collOk (collapseSkip l) = true
  | [] => rfl
  | a :: cs => by
    rw [collapseSkip]
    by_cases hw : wsU a
    · simp only [hw, if_pos]
      exact collapseSkip_collOk cs
    · simp only [hw, if_neg, Bool.false_eq_true, not_false_iff]
      refine collOk_cons a _ (fun c t' _ => ?_) (collapse_collOk cs)
      rw [Bool.eq_false_iff.mpr hw]
      simp

end

theorem collOk_tail {a : Char} {t : List Char} (h : collOk (a :: t) = true) :
    collOk t = true := by
  cases t with
  | nil => rfl
  | cons b t' =>
    rw [collOk, Bool.and_eq_true] at h
    exact h.2

theorem collOk_pair {a b : Char} {t : List Char} (h : collOk (a :: b :: t) = true) :
    (wsU a && wsU b) = false := by
  rw [collOk, Bool.and_eq_true] at h
  have h1 := h.1
  simp only [Bool.not_eq_true'] at h1
  exact h1

mutual

theorem collapse_id : ∀ (l : List Char), (∀ c ∈ l, pyWs c = false) → collOk l = true →
    collapse l = l
  | [], _, _ => rfl
  | a :: cs, h, hok => by
    rw [collapse]
    by_cases hw : wsU a
    · have ha : a = '_' := by
        have hws : pyWs a = false := h a (by simp)
        unfold wsU at hw
        rcases Bool.or_eq_true_iff.mp hw with h1 | h2
        · rw [hws] at h1; exact absurd h1 (by simp)
        · exact eq_of_beq h2
      simp only [hw, if_pos]
      rw [← ha]
      congr 1
      refine collapseSkip_id cs (fun c hc => h c (List.mem_cons_of_mem a hc))
        (collOk_tail hok) (fun c t' hct => ?_)
      have := collOk_pair (hct ▸ hok)
      rw [hw] at this
      simpa using this
    · simp only [hw, if_neg, Bool.false_eq_true, not_false_iff]
      congr 1
      exact collapse_id cs (fun c hc => h c (List.mem_cons_of_mem a hc)) (collOk_tail hok)

theorem collapseSkip_id : ∀ (l : List Char), (∀ c ∈ l, pyWs c = false) → collOk l = true →
    (∀ c t', l = c :: t' → wsU c = false) → collapseSkip l = l
  | [], _, _, _ => rfl
  | a :: cs, h, hok, hhead => by
    rw [collapseSkip]
    rw [hhead a cs rfl]
    simp only [Bool.false_eq_true, if_neg, not_false_iff]
    congr 1
    exact collapse_id cs (fun c hc => h c (List.mem_cons_of_mem a hc)) (collOk_tail hok)

end

theorem collOk_take : ∀ (l : List Char) (n : Nat), collOk l = true → collOk (l.take n) = true := by
  intro l
  induction l with
  | nil => intro n _; simp [collOk]
  | cons a t ih =>
    intro n h
    cases n with
    | zero => rfl
    | succ m =>
      rw [List.take_succ_cons]
      cases t with
      | nil => simp [collOk]
      | cons b t' =>
        cases m with
        | zero => rfl
        | succ k =>
          rw [List.take_succ_cons]
          rw [collOk, Bool.and_eq_true]
          refine ⟨by simp only [Bool.not_eq_true']; exact collOk_pair h, ?_⟩
          have := ih (k + 1) (collOk_tail h)
          rwa [List.take_succ_cons] at this

theorem map_badRepl_id (l : List Char) (h : ∀ c ∈ l, badChar c = false) :
    l.map (fun c => if badChar c then '_' else c) = l := by
  induction l with
  | nil => rfl
  | cons a t ih =>
    rw [List.map_cons]
    rw [h a (by simp)]
    simp only [Bool.false_eq_true, if_neg, not_false_iff]
    rw [ih (fun c hc => h c (List.mem_cons_of_mem a hc))]

/-- **C9.** `sanitize_filename` is idempotent. -/
theorem sanitize_filename_idem (x : String) :
    sanitize_filename (sanitize_filename x) = sanitize_filename x := by
  show (⟨sanitizeL (sanitizeL x.data)⟩ : String) = ⟨sanitizeL x.data⟩
  congr 1
  set y := sanitizeL x.data with hy
  have hWs : ∀ c ∈ y, pyWs c = false := by
    intro c hc
    exact collapse_noWs _ c (List.take_subset 100 _ hc)
  have hBad : ∀ c ∈ y, badChar c = false := sanitizeL_noBad x.data
  have hOk : collOk y = true := collOk_take _ 100 (collapse_collOk _)
  have hLen : y.length ≤ 100 := List.length_take_le 100 _
  unfold sanitizeL
  rw [pyStripL_id y hWs, map_badRepl_id y hBad, collapse_id y hWs hOk,
    List.take_of_length_le hLen]

/-! ## Post-date cleaning (`re.sub(r'Posted |#\d+', '', post_date).strip()`)

The regex engine scans left to right; at each position it first tries the
literal alternative `Posted `, then `#\d+` (one or more digits, taken
greedily); a match is deleted and scanning resumes after it.  `subScan`
implements this scan with a skip counter so that recursion stays
structural on the character list. -/

/-- The literal alternative `Posted ` (trailing space included). -/
def postedTok : List Char := ['P', 'o', 's', 't', 'e', 'd', ' ']

/-- Scanner for `re.sub(r'Posted |#\d+', '', s)`.  `skip > 0` means the
current character belongs to an already-matched token and is deleted. -/
def subScan : List Char → Nat → List Char
  | [], _ => []
  | _ :: cs, skip + 1 => subScan cs skip
  | c :: cs, 0 =>
    if isPre postedTok (c :: cs) then subScan cs 6
    else if c == '#' && !(cs.takeWhile Char.isDigit).isEmpty then
      subScan cs (cs.takeWhile Char.isDigit).length
    else c :: subScan cs 0

/-- `re.sub(r'Posted |#\d+', '', s)` on character lists. -/
def scanRemove (l : List Char) : List Char :=
  subScan l 0

/-- The date-cleaning step of `scrape_post_content`:
`re.sub(r'Posted |#\d+', '', post_date).strip()`. -/
def cleanPostDate (s : String) : String :=
  ⟨pyStripL (scanRemove s.data)⟩

/-- True when one of the two regex alternatives matches at the head of
the list. -/
def headTokB : List Char → Bool
  | [] => false
  | c :: cs => isPre postedTok (c :: cs) || (c == '#' && !(cs.takeWhile Char.isDigit).isEmpty)

/-- `tokFree mid tail` says neither regex alternative matches at any
position lying inside `mid` of the string `mid ++ tail`. -/
def tokFree (mid tail : List Char) : Prop :=
  ∀ i, i < mid.length → headTokB ((mid ++ tail).drop i) = false

/-- Formalisation of the claim's words, for comparison with the source
behaviour: remove one literal `Posted ` prefix, remove one trailing
`#<digits>` suffix, then strip.  All other characters are left intact. -/
instance (mid tail : List Char) : Decidable (tokFree mid tail) :=
  inferInstanceAs (Decidable (∀ i, i < mid.length → headTokB ((mid ++ tail).drop i) = false))

def claimDescribedClean (s : String) : String :=
  let l := s.data
  let l1 := if isPre postedTok l then l.drop 7 else l
  let r := l1.reverse
  let ds := r.takeWhile Char.isDigit
  let l2 :=
    if ds.isEmpty then l1
    else
      match r.drop ds.length with
      | '#' :: rest => rest.reverse
      | _ => l1
  ⟨pyStripL l2⟩

theorem subScan_skip : ∀ (l : List Char) (k : Nat), subScan l k = subScan (l.drop k) 0 := by
  intro l
  induction l with
  | nil => intro k; cases k <;> rfl
  | cons c cs ih =>
    intro k
    cases k with
    | zero => rfl
    | succ m =>
      show subScan cs m = _
      rw [ih m]
      rfl

theorem isPre_append_self : ∀ (p l : List Char), isPre p (p ++ l) = true := by
  intro p
  induction p with
  | nil => intro l; rfl
  | cons a t ih =>
    intro l
    rw [List.cons_append, isPre, beq_self_eq_true, ih l]
    rfl

theorem scanRemove_posted (l : List Char) :
    scanRemove (postedTok ++ l) = scanRemove l := by
  have e : postedTok ++ l = 'P' :: (['o', 's', 't', 'e', 'd', ' '] ++ l) := rfl
  have h : isPre postedTok ('P' :: (['o', 's', 't', 'e', 'd', ' '] ++ l)) = true := by
    rw [← e]; exact isPre_append_self postedTok l
  show subScan (postedTok ++ l) 0 = subScan l 0
  rw [e, subScan, if_pos h, subScan_skip]
  rfl

theorem scanRemove_nomatch (c : Char) (cs : List Char) (h : headTokB (c :: cs) = false) :
    scanRemove (c :: cs) = c :: scanRemove cs := by
  rw [headTokB, Bool.or_eq_false_iff] at h
  show subScan (c :: cs) 0 = c :: subScan cs 0
  rw [subScan, if_neg (by rw [h.1]; simp), if_neg (by rw [h.2]; simp)]

theorem scanRemove_append_free : ∀ (mid tail : List Char), tokFree mid tail →
    scanRemove (mid ++ tail) = mid ++ scanRemove tail := by
  intro mid
  induction mid with
  | nil => intro tail _; rfl
  | cons c mid' ih =>
    intro tail h
    have h0 : headTokB (c :: (mid' ++ tail)) = false := by
      have := h 0 (by simp)
      simpa using this
    rw [List.cons_append, scanRemove_nomatch c (mid' ++ tail) h0]
    rw [ih tail (fun i hi => by
      have := h (i + 1) (by simpa using Nat.succ_lt_succ hi)
      simpa using this)]
    rfl

theorem scanRemove_hash_all (ds : List Char) (hne : ds ≠ [])
    (hdig : ∀ c ∈ ds, Char.isDigit c = true) :
    scanRemove ('#' :: ds) = [] := by
  have htw : ds.takeWhile Char.isDigit = ds := List.takeWhile_eq_self_iff.mpr hdig
  have hpre : isPre postedTok ('#' :: ds) = false := by
    have : ('P' == '#') = false := by decide
    simp [isPre, postedTok, this]
  have hcond : (('#' == '#') && !(ds.takeWhile Char.isDigit).isEmpty) = true := by
    rw [htw, beq_self_eq_true]
    cases ds with
    | nil => exact absurd rfl hne
    | cons a t => simp
  show subScan ('#' :: ds) 0 = []
  rw [subScan, if_neg (by rw [hpre]; simp), if_pos hcond, subScan_skip, htw, List.drop_length]
  rfl

/-- Counterexample to C2 as stated: the regex deletes an *interior*
occurrence of `Posted `, which the claim says must be left intact. -/
theorem clean_post_date_counterexample :
    cleanPostDate "a Posted b" = "a b" ∧
    claimDescribedClean "a Posted b" = "a Posted b" ∧
    cleanPostDate "a Posted b" ≠ claimDescribedClean "a Posted b" := by
  refine ⟨by decide, by decide, by decide⟩

/-- **C2 (amended).** The substitution removes *every* left-to-right
non-overlapping occurrence of `Posted ` or `#<digits>`, not only a
leading prefix and a trailing suffix.  When the only occurrences are a
leading `Posted ` prefix and a trailing `#<digits>` suffix, the cleaned
date is the raw text with those two removed, whitespace-trimmed — the
original claim restricted to such inputs. -/
theorem clean_post_date_amended (mid ds : List Char)
    (hfree : tokFree mid ('#' :: ds)) (hne : ds ≠ [])
    (hdig : ∀ c ∈ ds, Char.isDigit c = true) :
    cleanPostDate ⟨postedTok ++ mid ++ '#' :: ds⟩ = pyStrip ⟨mid⟩ := by
  show (⟨pyStripL (scanRemove (postedTok ++ mid ++ '#' :: ds))⟩ : String) = _
  rw [List.append_assoc, scanRemove_posted (mid ++ '#' :: ds)]
  rw [scanRemove_append_free mid ('#' :: ds) hfree]
  rw [scanRemove_hash_all ds hne hdig]
  rw [List.append_nil]
  rfl

/-- Witness for the amended C2 on a realistic date string. -/
theorem clean_post_date_amended_witness :
    cleanPostDate ⟨postedTok ++ "12 May 2016 - 02:38 PM".data ++ '#' :: ['1']⟩ =
      pyStrip ⟨"12 May 2016 - 02:38 PM".data⟩ :=
  clean_post_date_amended "12 May 2016 - 02:38 PM".data ['1'] (by decide) (by decide)
    (by decide)

/-! ## Markup tree and text extraction

The parsed page is a tree of elements (tag, CSS classes, children) and
text nodes.  `get_text(sep, strip=True)` of the markup library collects
the text nodes of the subtree in document order, strips each one, drops
the ones that become empty and joins the rest with the separator.
`decompose()` removes a subtree. -/

inductive Node where
  | text : String → Node
  | elem : String → List String → List Node → Node

/-- Matches the selector `div.blockquote, pre.prettyprint, img` used to
decompose quote blocks, code blocks and images before reading the post
body. -/
def isRemovable : Node → Bool
  | .text _ => false
  | .elem tag classes _ =>
    (tag == "div" && classes.contains "blockquote") ||
      (tag == "pre" && classes.contains "prettyprint") ||
      tag == "img"

mutual

/-- Text nodes of a subtree, in document order (`soup.strings`). -/
def nodeTexts : Node → List String
  | .text s => [s]
  | .elem _ _ cs => nodesTexts cs

def nodesTexts : List Node → List String
  | [] => []
  | n :: ns => nodeTexts n ++ nodesTexts ns

end

mutual

/-- Effect of decomposing every selected `div.blockquote, pre.prettyprint,
img` descendant of a node (the node itself is never removed: `select`
finds descendants only). -/
def stripNode : Node → Node
  | .text s => .text s
  | .elem t c cs => .elem t c (stripNodes cs)

def stripNodes : List Node → List Node
  | [] => []
  | n :: ns => if isRemovable n then stripNodes ns else stripNode n :: stripNodes ns

end

mutual

/-- The text nodes that survive decomposition: those lying under no
removable block. -/
def keptTexts : Node → List String
  | .text s => [s]
  | .elem _ _ cs => keptTextsL cs

def keptTextsL : List Node → List String
  | [] => []
  | n :: ns => (if isRemovable n then [] else keptTexts n) ++ keptTextsL ns

end

/-- `get_text(sep, strip=True)` of the markup library. -/
def getTextStrip (sep : String) (n : Node) : String :=
  String.intercalate sep (((nodeTexts n).map pyStrip).filter (fun s => !(s == "")))

mutual

theorem stripNode_texts : ∀ (n : Node), nodeTexts (stripNode n) = keptTexts n
  | .text s => rfl
  | .elem t c cs => by
    rw [stripNode, nodeTexts, keptTexts]
    exact stripNodes_texts cs

theorem stripNodes_texts : ∀ (ns : List Node), nodesTexts (stripNodes ns) = keptTextsL ns
  | [] => rfl
  | n :: ns => by
    rw [stripNodes, keptTextsL]
    by_cases h : isRemovable n
    · simp only [h, if_pos]
      rw [stripNodes_texts ns]
      simp
    · simp only [h, if_neg, Bool.false_eq_true, not_false_iff]
      rw [nodesTexts, stripNode_texts n, stripNodes_texts ns]

end

/-- **C3.** Reading the post body after decomposing every nested quote
block, pretty-print block and image yields exactly the text nodes lying
outside those blocks, each stripped, empties dropped, joined with newline
separators: the removed blocks' contents never reach the body text. -/
theorem post_body_excludes_removed (n : Node) :
    getTextStrip "\n" (stripNode n) =
      String.intercalate "\n" (((keptTexts n).map pyStrip).filter (fun s => !(s == ""))) := by
  unfold getTextStrip
  rw [stripNode_texts n]

/-! ## Post Extractor (`scrape_post_content`)

A fetched page is abstracted as the data the scraper's selectors extract
from it: the `div.post.entry-content` blocks with their enclosing
`div.post_wrap` containers, the topic rows of a listing page, the forum
rows of the index page, and the `a[rel="next"]` link's href.  The network
is the explicit function `fetch : String → Option Soup` (the composite of
`make_soup`'s retrying fetch).  Loops take a fuel bound standing for the
absence of a termination guarantee in the source's `while` loop. -/

/-- An `img` element (the tag selected by `find_all('img')`). -/
def isImg : Node → Bool
  | .elem t _ _ => t == "img"
  | .text _ => false

mutual

/-- Effect of decomposing every `img` descendant (signature cleaning). -/
def stripImgNode : Node → Node
  | .text s => .text s
  | .elem t c cs => .elem t c (stripImgNodes cs)

def stripImgNodes : List Node → List Node
  | [] => []
  | n :: ns => if isImg n then stripImgNodes ns else stripImgNode n :: stripImgNodes ns

end

/-- The pieces of a `div.post_wrap` container the extractor reads:
`h3.author`, `p.posted_info` and the `div.signature` block, each absent
when the selector finds nothing. -/
structure PostWrap where
  authorH3 : Option Node
  postedInfoP : Option Node
  signatureDiv : Option Node

/-- One `div.post.entry-content` block and its `find_parent` result. -/
structure PostDiv where
  contentDiv : Node
  wrap : Option PostWrap

/-- One `tr[class^="row"]` of a topic-listing page: the
`td.col_f_topic a[href*="showtopic="]` link as (title, href) when found,
and the text of `td.col_f_lastact` when that cell exists. -/
structure TopicRow where
  topicLink : Option (String × String)
  lastActText : Option String

/-- One row of the index page: the `td h4 a[href*="showforum="]` link as
(name, href) when found, and the `span.desc` sub-forum links. -/
structure IndexRow where
  mainLink : Option (String × String)
  subLinks : List (String × String)

/-- What the scraper's selectors can extract from one fetched page. -/
structure Soup where
  postDivs : List PostDiv
  topicRows : List TopicRow
  indexRows : List IndexRow
  nextHref : Option String

/-- The `"="*80` separator line. -/
def eqSep : String := ⟨List.replicate 80 '='⟩

/-- Processing of one `div.post.entry-content` block inside the page
loop of `scrape_post_content`: skip silently without a `post_wrap`
parent, otherwise extract username, cleaned date, cleaned body and
cleaned signature and emit the text chunks appended to
`all_posts_text`. -/
def processPost (pd : PostDiv) : List String :=
  match pd.wrap with
  | none => []
  | some w =>
    let username := match w.authorH3 with
      | some h => getTextStrip "" h
      | none => "Unknown User"
    let rawDate := match w.postedInfoP with
      | some p => getTextStrip "" p
      | none => "Unknown Date"
    let postDate := cleanPostDate rawDate
    let content := getTextStrip "\n" (stripNode pd.contentDiv)
    let sig := match w.signatureDiv with
      | some sd => pyStrip (getTextStrip "\n" (stripImgNode sd))
      | none => ""
    (["--- User: " ++ username ++ " | Date: " ++ postDate ++ " ---\n\n" ++ content] ++
        (if sig == "" then [] else ["\n--- Signature ---\n" ++ sig])) ++
      ["\n" ++ eqSep ++ "\n"]

/-- The chunks a single page contributes to `all_posts_text`. -/
def pagePosts (s : Soup) : List String :=
  (s.postDivs.map processPost).flatten

/-- The next page URL: follow `a[rel="next"]` when present with a
non-empty href, resolving it against the current page URL. -/
def nextUrl (join : String → String → String) (url : String) (s : Soup) : Option String :=
  match s.nextHref with
  | some h => if h == "" then none else some (resolve_url join url h)
  | none => none

/-- The `while current_page_url:` loop of `scrape_post_content`,
accumulating `all_posts_text`.  A failed fetch breaks the loop, keeping
what was already collected. -/
def scrapePostLoop (join : String → String → String) (fetch : String → Option Soup) :
    Nat → Option String → List String
  | _, none => []
  | 0, some _ => []
  | fuel + 1, some url =>
    match fetch url with
    | none => []
    | some soup => pagePosts soup ++ scrapePostLoop join fetch fuel (nextUrl join url soup)

/-- `scrape_post_content` from the source: run the page loop from the
topic URL and join the collected chunks with newlines. -/
def scrape_post_content (join : String → String → String) (fetch : String → Option Soup)
    (fuel : Nat) (url : String) : String :=
  String.intercalate "\n" (scrapePostLoop join fetch fuel (some url))

/-- `fetchChain join fetch url pages` says: starting at `url`, each page
of `pages` is fetched successfully and carries a non-empty next link
resolving to the next page's URL, and the fetch after the last page
returns `none`. -/
def fetchChain (join : String → String → String) (fetch : String → Option Soup) :
    String → List Soup → Prop
  | url, [] => fetch url = none
  | url, s :: ss => fetch url = some s ∧
      ∃ h, s.nextHref = some h ∧ h ≠ "" ∧ fetchChain join fetch (resolve_url join url h) ss

theorem scrapePostLoop_chain (join : String → String → String) (fetch : String → Option Soup) :
    ∀ (pages : List Soup) (url : String) (fuel : Nat),
      fetchChain join fetch url pages → pages.length < fuel →
      scrapePostLoop join fetch fuel (some url) = (pages.map pagePosts).flatten := by
  intro pages
  induction pages with
  | nil =>
    intro url fuel hchain hfuel
    cases fuel with
    | zero => omega
    | succ m =>
      have hf : fetch url = none := hchain
      simp only [scrapePostLoop, hf]
      rfl
  | cons s ss ih =>
    intro url fuel hchain hfuel
    rcases hchain with ⟨hfetch, h, hnext, hne, hrest⟩
    cases fuel with
    | zero => simp at hfuel
    | succ m =>
      have hnu : nextUrl join url s = some (resolve_url join url h) := by
        simp [nextUrl, hnext, hne]
      simp only [scrapePostLoop, hfetch, hnu]
      rw [ih (resolve_url join url h) m hrest (by simp at hfuel; omega)]
      simp

/-- **C4.** When pages `1..k` of a topic fetch successfully and the fetch
of page `k+1` fails, `scrape_post_content` returns exactly the chunks of
pages `1..k`, in page order then container order; the partial result is
kept and no exception escapes (the function is total). -/
theorem scrape_post_content_partial (join : String → String → String)
    (fetch : String → Option Soup) (url : String) (pages : List Soup) (fuel : Nat)
    (hchain : fetchChain join fetch url pages) (hfuel : pages.length < fuel) :
    scrape_post_content join fetch fuel url =
      String.intercalate "\n" ((pages.map pagePosts).flatten) := by
  unfold scrape_post_content
  rw [scrapePostLoop_chain join fetch pages url fuel hchain hfuel]

/-- A two-page fixture topic: page 1 links to page 2; page 2 links to a
third page whose fetch fails. -/
def soupPage1 : Soup :=
  { postDivs := [{ contentDiv := Node.elem "div" ["post", "entry-content"] [Node.text " hello "],
                   wrap := some { authorH3 := some (Node.elem "h3" ["author"] [Node.text "alice"]),
                                  postedInfoP := some (Node.elem "p" ["posted_info"]
                                    [Node.text "Posted 01 May 2016#1"]),
                                  signatureDiv := none } }],
    topicRows := [], indexRows := [], nextHref := some "http://p2" }

def soupPage2 : Soup :=
  { postDivs := [{ contentDiv := Node.elem "div" ["post", "entry-content"] [Node.text " world "],
                   wrap := some { authorH3 := none, postedInfoP := none,
                                  signatureDiv := none } }],
    topicRows := [], indexRows := [], nextHref := some "http://p3" }

def fetchTwoPages : String → Option Soup
  | "http://p1" => some soupPage1
  | "http://p2" => some soupPage2
  | _ => none

/-- Witness for C4 on the two-page fixture. -/
theorem scrape_post_content_partial_witness :
    scrape_post_content (fun b _ => b) fetchTwoPages 3 "http://p1" =
      String.intercalate "\n" (([soupPage1, soupPage2].map pagePosts).flatten) :=
  scrape_post_content_partial (fun b _ => b) fetchTwoPages "http://p1" [soupPage1, soupPage2] 3
    ⟨rfl, "http://p2", rfl, by decide, rfl, "http://p3", rfl, by decide, rfl⟩ (by decide)

/-! ## Topic Listing Crawler (`scrape_topic_listing`)

`re.search(r'(\d{1,2}\s\w+\s\d{4})', text)` is modelled by a leftmost
backtracking scan; filesystem writes become a returned list of
`(filepath, content)` intents, in the order the source performs them. -/

/-- The regex word class `\w` (ASCII range). -/
def isWordC (c : Char) : Bool :=
  c.isAlphanum || c == '_'

/-- Match `\s\d{4}` at the head of the list, returning the consumed
characters. -/
def matchSpD4 : List Char → Option (List Char)
  | sp :: a :: b :: c :: d :: _ =>
    if pyWs sp && a.isDigit && b.isDigit && c.isDigit && d.isDigit then
      some [sp, a, b, c, d]
    else none
  | _ => none

/-- Backtracking for a greedy `\w+` followed by `\s\d{4}`: try taking
`k` word characters, from longest down to one. -/
def wordsBack (l : List Char) : Nat → Option (List Char)
  | 0 => none
  | k + 1 =>
    match matchSpD4 (l.drop (k + 1)) with
    | some m => some (l.take (k + 1) ++ m)
    | none => wordsBack l k

/-- Match `\w+\s\d{4}` at the head, greedily. -/
def matchWordsFrom (l : List Char) : Option (List Char) :=
  wordsBack l (l.takeWhile isWordC).length

/-- Match `\s\w+\s\d{4}` at the head. -/
def matchSpWords : List Char → Option (List Char)
  | [] => none
  | sp :: r => if pyWs sp then (matchWordsFrom r).map (fun m => sp :: m) else none

/-- Match `\d{1,2}\s\w+\s\d{4}` at the head; the `{1,2}` is greedy, so
two digits are tried before one. -/
def tryDateAt : List Char → Option (List Char)
  | [] => none
  | a :: rest =>
    if a.isDigit then
      match rest with
      | [] => none
      | b :: rest2 =>
        if b.isDigit then
          match matchSpWords rest2 with
          | some m => some (a :: b :: m)
          | none => (matchSpWords rest).map (fun m => a :: m)
        else (matchSpWords rest).map (fun m => a :: m)
    else none

/-- Leftmost match of the date pattern (`re.search`). -/
def searchDate : List Char → Option (List Char)
  | [] => none
  | l@(_ :: t) =>
    match tryDateAt l with
    | some m => some m
    | none => searchDate t

/-- `re.search(r'(\d{1,2}\s\w+\s\d{4})', s)`, returning `group(1)`. -/
def reSearchDate (s : String) : Option String :=
  (searchDate s.data).map (fun l => ⟨l⟩)

/-- Python `s.replace(" ", "-")`. -/
def spaceToHyphen (s : String) : String :=
  ⟨s.data.map (fun c => if c == ' ' then '-' else c)⟩

/-- The filename date prefix of one topic row: the matched date with
spaces hyphenated, or the sentinel `unknown_date`. -/
def rowDatePrefix (row : TopicRow) : String :=
  let lastStr := match row.lastActText with
    | some s => s
    | none => "nodate"
  match reSearchDate lastStr with
  | some m => spaceToHyphen m
  | none => "unknown_date"

/-- Processing of one topic row inside the page loop of
`scrape_topic_listing`: rows without a topic link are skipped; the topic
is scraped; the file write and the listing line are both emitted only
when the scraped content is non-empty. -/
def processRow (join : String → String → String) (fetch : String → Option Soup) (spcFuel : Nat)
    (url path : String) (row : TopicRow) : List (String × String) × List String :=
  match row.topicLink with
  | none => ([], [])
  | some (title, href) =>
    let topicUrl := resolve_url join url href
    let content := scrape_post_content join fetch spcFuel topicUrl
    if content == "" then ([], [])
    else
      ([(joinPath path (rowDatePrefix row ++ "-" ++ sanitize_filename title ++ ".txt"), content)],
       [title ++ " | " ++ topicUrl])

/-- The `while current_page_url:` loop of `scrape_topic_listing`,
returning accumulated file-write intents and listing lines. -/
def scrapeTopicLoop (join : String → String → String) (fetch : String → Option Soup)
    (spcFuel : Nat) (path : String) :
    Nat → Option String → List (String × String) × List String
  | _, none => ([], [])
  | 0, some _ => ([], [])
  | fuel + 1, some url =>
    match fetch url with
    | none => ([], [])
    | some soup =>
      let step := soup.topicRows.map (processRow join fetch spcFuel url path)
      let rest := scrapeTopicLoop join fetch spcFuel path fuel (nextUrl join url soup)
      ((step.map Prod.fst).flatten ++ rest.1, (step.map Prod.snd).flatten ++ rest.2)

/-- `scrape_topic_listing` from the source: run the page loop, then
unconditionally write `<path>/listing.txt` with the newline-joined
listing lines.  Returned value: the file writes, in order. -/
def scrape_topic_listing (join : String → String → String) (fetch : String → Option Soup)
    (spcFuel pageFuel : Nat) (url path : String) : List (String × String) :=
  let r := scrapeTopicLoop join fetch spcFuel path pageFuel (some url)
  r.1 ++ [(joinPath path "listing.txt", String.intercalate "\n" r.2)]

/-- **C7.** On a listing page, each discovered topic row yields a file
write and a listing line exactly when the post extractor returns
non-empty content for it, and the crawl output is the concatenation of
the per-row contributions followed by the listing write. -/
theorem topic_listing_gating (join : String → String → String) (fetch : String → Option Soup)
    (spcFuel pageFuel : Nat) (url path : String) (soup : Soup)
    (hf : fetch url = some soup) (hnext : soup.nextHref = none) :
    scrape_topic_listing join fetch spcFuel (pageFuel + 1) url path =
      (soup.topicRows.map (fun r => (processRow join fetch spcFuel url path r).1)).flatten ++
        [(joinPath path "listing.txt", String.intercalate "\n"
          ((soup.topicRows.map (fun r => (processRow join fetch spcFuel url path r).2)).flatten))] ∧
    (∀ row title href, row ∈ soup.topicRows → row.topicLink = some (title, href) →
      (scrape_post_content join fetch spcFuel (resolve_url join url href) ≠ "" →
        processRow join fetch spcFuel url path row =
          ([(joinPath path (rowDatePrefix row ++ "-" ++ sanitize_filename title ++ ".txt"),
             scrape_post_content join fetch spcFuel (resolve_url join url href))],
           [title ++ " | " ++ resolve_url join url href])) ∧
      (scrape_post_content join fetch spcFuel (resolve_url join url href) = "" →
        processRow join fetch spcFuel url path row = ([], []))) := by
  constructor
  · unfold scrape_topic_listing
    have hnu : nextUrl join url soup = none := by
      rw [nextUrl, hnext]
    simp only [scrapeTopicLoop, hf, hnu]
    rw [List.map_map, List.map_map, List.append_nil, List.append_nil]
    rfl
  · intro row title href _ hlink
    constructor
    · intro hne
      simp only [processRow, hlink]
      rw [if_neg (by simpa using hne)]
    · intro he
      simp only [processRow, hlink]
      rw [if_pos (by simpa using he)]

/-- A one-page forum fixture with two topic rows: the first topic has a
post, the second topic's fetch fails (so its content is empty). -/
def topicSoup : Soup :=
  { postDivs := [], topicRows :=
      [{ topicLink := some ("My Topic", "http://t1"), lastActText := some "25 December 2019" },
       { topicLink := some ("Empty Topic", "http://t2"), lastActText := none }],
    indexRows := [], nextHref := none }

def topicPostSoup : Soup :=
  { postDivs := [{ contentDiv := Node.elem "div" ["post", "entry-content"] [Node.text "body"],
                   wrap := some { authorH3 := none, postedInfoP := none,
                                  signatureDiv := none } }],
    topicRows := [], indexRows := [], nextHref := none }

def fetchTopicFixture : String → Option Soup
  | "http://f1" => some topicSoup
  | "http://t1" => some topicPostSoup
  | _ => none

/-- Witness for C7 on the fixture: the topic with content produces its
file and listing line, the empty topic produces neither. -/
theorem topic_listing_gating_witness :
    scrape_topic_listing (fun b _ => b) fetchTopicFixture 2 1 "http://f1" "out" =
      [("out/25-December-2019-My_Topic.txt",
        "--- User: Unknown User | Date: Unknown Date ---\n\nbody\n\n" ++ eqSep ++ "\n"),
       ("out/listing.txt", "My Topic | http://t1")] ∧
    processRow (fun b _ => b) fetchTopicFixture 2 "http://f1" "out" topicSoup.topicRows[1] =
      ([], []) := by
  have h := topic_listing_gating (fun b _ => b) fetchTopicFixture 2 0 "http://f1" "out"
    topicSoup rfl rfl
  constructor
  · rw [h.1]
    decide
  · exact (h.2 topicSoup.topicRows[1] "Empty Topic" "http://t2"
      (List.Mem.tail _ (List.Mem.head _)) rfl).2 rfl

/-- **C10.** Every run of `scrape_topic_listing` ends by writing
`<path>/listing.txt`; when the very first fetch fails, the only write is
an empty `listing.txt`. -/
theorem topic_listing_always_writes (join : String → String → String)
    (fetch : String → Option Soup) (spcFuel pageFuel : Nat) (url path : String) :
    (∃ s, (scrape_topic_listing join fetch spcFuel pageFuel url path).getLast? =
      some (joinPath path "listing.txt", s)) ∧
    (fetch url = none →
      scrape_topic_listing join fetch spcFuel pageFuel url path =
        [(joinPath path "listing.txt", "")]) := by
  constructor
  · exact ⟨_, List.getLast?_concat _⟩
  · intro hfail
    have hloop : scrapeTopicLoop join fetch spcFuel path pageFuel (some url) = ([], []) := by
      cases pageFuel with
      | zero => rfl
      | succ m => simp only [scrapeTopicLoop, hfail]
    unfold scrape_topic_listing
    rw [hloop]
    rfl

/-- Witness for C10: a forum whose first page fetch fails still gets an
empty `listing.txt`. -/
theorem topic_listing_always_writes_witness :
    scrape_topic_listing (fun b _ => b) (fun _ => none) 1 1 "http://f" "out" =
      [(joinPath "out" "listing.txt", "")] :=
  (topic_listing_always_writes (fun b _ => b) (fun _ => none) 1 1 "http://f" "out").2 rfl

/-! ## Forum Index Crawler (`scrape_forum_index`)

The returned pair is (`all_forums_found`, topic-listing crawl invocations
as (forum URL, output path) pairs, in call order). -/

/-- The row loop of `scrape_forum_index`, threading the accumulated
`all_forums_found` list.  A main forum link whose resolved URL occurs as
a substring of an already-recorded entry is skipped together with its
whole row (`continue`); otherwise the forum is recorded and crawled, and
every sub-forum link with a non-empty name is recorded and crawled
unconditionally. -/
def indexGo (join : String → String → String) (url path : String) :
    List IndexRow → List String → List String × List (String × String)
  | [], acc => (acc, [])
  | row :: rest, acc =>
    match row.mainLink with
    | none => indexGo join url path rest acc
    | some (name, href) =>
      let furl := resolve_url join url href
      if acc.any (fun f => pyIn furl f) then indexGo join url path rest acc
      else
        let fpath := joinPath path (sanitize_filename name)
        let subs := row.subLinks.filter (fun p => !(p.1 == ""))
        let subEntries := subs.map (fun p => "  - " ++ p.1 ++ " | " ++ resolve_url join url p.2)
        let subCrawls := subs.map
          (fun p => (resolve_url join url p.2, joinPath fpath (sanitize_filename p.1)))
        let r := indexGo join url path rest (acc ++ (name ++ " | " ++ furl) :: subEntries)
        (r.1, ((furl, fpath) :: subCrawls) ++ r.2)

/-- `scrape_forum_index` from the source: fetch the index page once and
run the row loop with an empty accumulator; a failed fetch returns no
entries and no crawls. -/
def scrape_forum_index (join : String → String → String) (fetch : String → Option Soup)
    (url path : String) : List String × List (String × String) :=
  match fetch url with
  | none => ([], [])
  | some soup => indexGo join url path soup.indexRows []

/-- A fixture index page whose single row carries a main forum link and a
sub-forum link resolving to the same URL. -/
def dupIndexSoup : Soup :=
  { postDivs := [], topicRows := [],
    indexRows := [{ mainLink := some ("F", "http://a"), subLinks := [("S", "http://a")] }],
    nextHref := none }

def fetchDupIndex : String → Option Soup
  | "http://idx" => some dupIndexSoup
  | _ => none

/-- Counterexample to C6 as stated: the sub-forum link's resolved URL
`http://a` is a substring of the already-recorded entry
`F | http://a`, yet the sub-forum is still recorded and still crawled —
the substring de-duplication is applied to top-level forum links only. -/
theorem forum_index_dedup_counterexample :
    pyIn "http://a" "F | http://a" = true ∧
    (scrape_forum_index (fun b _ => b) fetchDupIndex "http://idx" "out").1 =
      ["F | http://a", "  - S | http://a"] ∧
    ("  - S | http://a" ∈ (scrape_forum_index (fun b _ => b) fetchDupIndex "http://idx" "out").1 ∧
      ("http://a", joinPath (joinPath "out" "F") "S") ∈
        (scrape_forum_index (fun b _ => b) fetchDupIndex "http://idx" "out").2) := by
  refine ⟨by decide, by decide, by decide, by decide⟩

theorem indexGo_acc_mem (join : String → String → String) (url path : String) :
    ∀ (rows : List IndexRow) (acc : List String) (e : String), e ∈ acc →
      e ∈ (indexGo join url path rows acc).1 := by
  intro rows
  induction rows with
  | nil => intro acc e he; exact he
  | cons row rest ih =>
    intro acc e he
    rw [indexGo]
    cases hml : row.mainLink with
    | none => exact ih acc e he
    | some p =>
      rcases p with ⟨name, href⟩
      by_cases hdup : acc.any (fun f => pyIn (resolve_url join url href) f)
      · simp only [hdup, if_pos]
        exact ih acc e he
      · simp only [hdup, if_neg, Bool.false_eq_true, not_false_iff]
        exact ih _ e (List.mem_append_left _ he)

/-- **C6 (amended).** The substring de-duplication applies to top-level
forum links only, and skipping a duplicate main link skips its entire
row, sub-forums included.  Sub-forum links of a processed row are never
de-duplicated: every sub-forum link with a non-empty name is recorded
and crawled, even when its resolved URL is a substring of an
already-recorded entry; links with an empty name are skipped. -/
theorem forum_index_dedup_amended (join : String → String → String) (url path : String)
    (name href : String) (subs : List (String × String)) (rest : List IndexRow)
    (acc : List String) :
    (acc.any (fun f => pyIn (resolve_url join url href) f) = true →
      indexGo join url path ({ mainLink := some (name, href), subLinks := subs } :: rest) acc =
        indexGo join url path rest acc) ∧
    (acc.any (fun f => pyIn (resolve_url join url href) f) = false →
      (name ++ " | " ++ resolve_url join url href) ∈
          (indexGo join url path
            ({ mainLink := some (name, href), subLinks := subs } :: rest) acc).1 ∧
      (resolve_url join url href, joinPath path (sanitize_filename name)) ∈
          (indexGo join url path
            ({ mainLink := some (name, href), subLinks := subs } :: rest) acc).2 ∧
      ∀ sn sh, (sn, sh) ∈ subs → sn ≠ "" →
        ("  - " ++ sn ++ " | " ++ resolve_url join url sh) ∈
            (indexGo join url path
              ({ mainLink := some (name, href), subLinks := subs } :: rest) acc).1 ∧
        (resolve_url join url sh, joinPath (joinPath path (sanitize_filename name))
            (sanitize_filename sn)) ∈
          (indexGo join url path
            ({ mainLink := some (name, href), subLinks := subs } :: rest) acc).2) := by
  constructor
  · intro hdup
    rw [indexGo]
    simp only [hdup, if_pos]
  · intro hdup
    have hstep : indexGo join url path
        ({ mainLink := some (name, href), subLinks := subs } :: rest) acc =
        (let furl := resolve_url join url href
         let fpath := joinPath path (sanitize_filename name)
         let subs' := subs.filter (fun p => !(p.1 == ""))
         let subEntries := subs'.map (fun p => "  - " ++ p.1 ++ " | " ++ resolve_url join url p.2)
         let subCrawls := subs'.map
           (fun p => (resolve_url join url p.2, joinPath fpath (sanitize_filename p.1)))
         let r := indexGo join url path rest (acc ++ (name ++ " | " ++ furl) :: subEntries)
         (r.1, ((furl, fpath) :: subCrawls) ++ r.2)) := by
      rw [indexGo]
      simp only [hdup]
      rfl
    rw [hstep]
    refine ⟨?_, ?_, ?_⟩
    · exact indexGo_acc_mem join url path rest _ _
        (List.mem_append_right acc (List.mem_cons_self _ _))
    · exact List.mem_append_left _ (List.mem_cons_self _ _)
    · intro sn sh hmem hne
      constructor
      · refine indexGo_acc_mem join url path rest _ _ ?_
        refine List.mem_append_right acc (List.mem_cons_of_mem _ ?_)
        refine List.mem_map.mpr ⟨(sn, sh), ?_, rfl⟩
        refine List.mem_filter.mpr ⟨hmem, ?_⟩
        simpa using hne
      · refine List.mem_append_left _ (List.mem_cons_of_mem _ ?_)
        refine List.mem_map.mpr ⟨(sn, sh), ?_, rfl⟩
        refine List.mem_filter.mpr ⟨hmem, ?_⟩
        simpa using hne

/-- Witness for the amended C6 on the duplicate fixture: the sub-forum
sharing the main forum's URL is recorded and crawled anyway. -/
theorem forum_index_dedup_amended_witness :
    ("  - S | http://a" ∈
      (indexGo (fun b _ => b) "http://idx" "out"
        [{ mainLink := some ("F", "http://a"), subLinks := [("S", "http://a")] }] []).1) ∧
    (("http://a", joinPath (joinPath "out" "F") "S") ∈
      (indexGo (fun b _ => b) "http://idx" "out"
        [{ mainLink := some ("F", "http://a"), subLinks := [("S", "http://a")] }] []).2) := by
  have h := (forum_index_dedup_amended (fun b _ => b) "http://idx" "out" "F" "http://a"
    [("S", "http://a")] [] []).2 (by decide)
  have h2 := h.2.2 "S" "http://a" (List.Mem.head _) (by decide)
  constructor
  · have := h2.1
    simpa using this
  · have := h2.2
    simpa using this

end GMC
